import Mathlib

/-!
Shallow embedding of `src/text/semantic_string.rs` from Measter/rust_utils.

Strings (`&str`) are modelled as `List Char`; byte positions are made explicit
via each character's UTF-8 size, since the Rust code indexes and slices the
string by byte offsets (`char_indices`, `&raw[a..b]`, `raw.len()`).

Rust panics (a failed `&raw[a..b]` slice at a non-character-boundary, or the
`.expect` on `str::parse::<u64>`) are modelled as `none`: `SemanticString::new`
becomes a function into `Option SemanticString`, where `none` means the Rust
code panics and `some` is the value it returns.
-/

/-- Model of Rust `char::len_utf8`: the number of bytes of the UTF-8 encoding
of a character. -/
def csize (c : Char) : Nat :=
  if c.toNat < 0x80 then 1
  else if c.toNat < 0x800 then 2
  else if c.toNat < 0x10000 then 3
  else 4

/-- Byte length of a string, as Rust `str::len` returns it. -/
def byteLen (s : List Char) : Nat := (s.map csize).sum

/-- Helper for `charIndices`: pairs every character with its byte offset,
starting from offset `i`. -/
def charIndicesAux : Nat → List Char → List (Nat × Char)
  | _, [] => []
  | i, c :: cs => (i, c) :: charIndicesAux (i + csize c) cs

/-- Model of Rust `str::char_indices`: each character paired with the byte
offset at which it starts. -/
def charIndices (s : List Char) : List (Nat × Char) := charIndicesAux 0 s

/-- The valid byte positions for slicing `s`: the start offset of every
character, plus the total byte length (`str::is_char_boundary`). -/
def boundaries (s : List Char) : List Nat :=
  (charIndices s).map Prod.fst ++ [byteLen s]

/-- Model of the Rust slice `&s[a..b]`: the characters whose encoding lies in
the byte range `[a, b)`.  Rust panics when `a > b`, when a bound exceeds the
byte length, or when a bound is not a character boundary; those cases are
`none`. -/
def strSlice (s : List Char) (a b : Nat) : Option (List Char) :=
  if a ≤ b ∧ a ∈ boundaries s ∧ b ∈ boundaries s then
    some (((charIndices s).filter (fun p => a ≤ p.1 && p.1 < b)).map Prod.snd)
  else
    none

/-- Decimal digit value of an ASCII digit character. -/
def digitVal (c : Char) : Nat := c.toNat - 48

/-- Whether `c` is an ASCII decimal digit `0`..`9`. -/
def isAsciiDigit (c : Char) : Bool := 48 ≤ c.toNat && c.toNat ≤ 57

/-- Value of a digit string under standard base-10 reading. -/
def decimalValue (t : List Char) : Nat :=
  t.foldl (fun a c => a * 10 + digitVal c) 0

/-- Rust's unsigned `from_str` accepts one optional leading plus sign. -/
def stripPlus : List Char → List Char
  | '+' :: r => r
  | s => s

/-- Model of Rust `str::parse::<u64>` (`u64::from_str`): an optional `+`
followed by at least one ASCII digit, succeeding only when the value fits in
64 unsigned bits; everything else is an error (`none`). -/
def parseU64 (s : List Char) : Option Nat :=
  if (stripPlus s).isEmpty then none
  else if (stripPlus s).all isAsciiDigit then
    if decimalValue (stripPlus s) < 2 ^ 64 then some (decimalValue (stripPlus s))
    else none
  else none

/-- The grouping key used by the tokenizer: Rust
`c.is_numeric() && c.is_ascii()`.  Within the ASCII range, `char::is_numeric`
holds exactly for the digits `0`..`9`, so the conjunction is equivalent to
being an ASCII decimal digit. -/
def isNumericAscii (c : Char) : Bool := 48 ≤ c.toNat && c.toNat ≤ 57

/-- Helper for `groupRuns`: accumulates the current run (in reverse) whose key
is `k`, starting a new run whenever the key changes. -/
def groupRunsAux (k : Bool) (acc : List (Nat × Char)) :
    List (Nat × Char) → List (Bool × List (Nat × Char))
  | [] => [(k, acc.reverse)]
  | (i, c) :: rest =>
    if isNumericAscii c = k then
      groupRunsAux k ((i, c) :: acc) rest
    else
      (k, acc.reverse) :: groupRunsAux (isNumericAscii c) [(i, c)] rest

/-- Model of itertools `group_by` applied to the indexed characters with key
`isNumericAscii`: the maximal runs of characters sharing one key value, each
tagged with that key. -/
def groupRuns : List (Nat × Char) → List (Bool × List (Nat × Char))
  | [] => []
  | (i, c) :: rest => groupRunsAux (isNumericAscii c) [(i, c)] rest

/-- Model of the Rust enum `StringPart`: a borrowed text span or a parsed
unsigned 64-bit number. -/
inductive StringPart where
  | Text : List Char → StringPart
  | Number : Nat → StringPart
  deriving DecidableEq, Repr

/-- Model of Rust `usize::cmp` / `u64::cmp`. -/
def natCmp (a b : Nat) : Ordering :=
  if a < b then .lt else if b < a then .gt else .eq

/-- Model of Rust `str::cmp`: lexicographic byte order, which under UTF-8
coincides with lexicographic order of the code points. -/
def listCharCmp : List Char → List Char → Ordering
  | [], [] => .eq
  | [], _ :: _ => .lt
  | _ :: _, [] => .gt
  | a :: as, b :: bs =>
    match natCmp a.toNat b.toNat with
    | .eq => listCharCmp as bs
    | o => o

/-- Model of `impl Ord for StringPart` (`StringPart::cmp`). -/
def StringPart.cmp : StringPart → StringPart → Ordering
  | .Text a, .Text b => listCharCmp a b
  | .Number a, .Number b => natCmp a b
  | .Text _, .Number _ => .lt
  | .Number _, .Text _ => .gt

/-- Model of the Rust struct `SemanticString`: the raw string together with
its token sequence. Equality is structural on both fields, as the derived
`PartialEq` compares `raw` and `parts`. -/
structure SemanticString where
  raw : List Char
  parts : List StringPart
  deriving DecidableEq, Repr

/-- The lock-step loop inside `SemanticString::cmp`: zip the two part lists
and return the first non-equal token comparison, `Equal` when the zip is
exhausted. -/
def partsCmp : List StringPart → List StringPart → Ordering
  | a :: as, b :: bs =>
    match StringPart.cmp a b with
    | .eq => partsCmp as bs
    | o => o
  | _, _ => .eq

/-- Model of `impl Ord for SemanticString` (`SemanticString::cmp`): first the
byte lengths of the raw strings; only on a tie the token-by-token loop. -/
def SemanticString.cmp (a b : SemanticString) : Ordering :=
  match natCmp (byteLen a.raw) (byteLen b.raw) with
  | .eq => partsCmp a.parts b.parts
  | o => o

/-- The byte offset the Rust loop uses as the end of the slice for one group:
`group.last()` after `group.next()` yields the last remaining element of the
group when the group has at least two elements, in which case the code takes
that element's start offset; otherwise it takes `first_index + 1`. -/
def lastIdx (firstIndex : Nat) (rest : List (Nat × Char)) : Nat :=
  match rest.getLast? with
  | none => firstIndex + 1
  | some p => p.1

/-- The body of the `for` loop of `SemanticString::new`, over the list of
groups.  An empty group models `group.next()` returning `None` (`continue`);
a failed slice or a failed `parse` models the corresponding Rust panic. -/
def buildParts (raw : List Char) :
    List (Bool × List (Nat × Char)) → Option (List StringPart)
  | [] => some []
  | (_, []) :: gs => buildParts raw gs
  | (isNum, (firstIndex, _c) :: rest) :: gs =>
    match strSlice raw firstIndex (lastIdx firstIndex rest) with
    | none => none
    | some part =>
      if isNum then
        match parseU64 part with
        | none => none
        | some v => (buildParts raw gs).map (fun ps => StringPart.Number v :: ps)
      else
        (buildParts raw gs).map (fun ps => StringPart.Text part :: ps)

/-- The token sequence `SemanticString::new` computes for `raw`; `none` when
the Rust code panics. -/
def tokenize (raw : List Char) : Option (List StringPart) :=
  buildParts raw (groupRuns (charIndices raw))

/-- Model of `SemanticString::new`: `none` when the Rust code panics, `some`
of the constructed value otherwise. -/
def SemanticString.new (raw : List Char) : Option SemanticString :=
  (tokenize raw).map (fun ps => { raw := raw, parts := ps })

/-- Model of `impl From<&str> for SemanticString`, which just calls `new`. -/
def SemanticString.fromStr (raw : List Char) : Option SemanticString :=
  SemanticString.new raw

/-- Model of `impl Deref for SemanticString`, which returns the `raw` field. -/
def SemanticString.deref (s : SemanticString) : List Char := s.raw

/-! ## Helper lemmas -/

theorem natCmp_lt_iff {a b : Nat} : natCmp a b = .lt ↔ a < b := by
  simp only [natCmp]
  split
  · simp_all
  · split <;> simp_all

theorem natCmp_gt_iff {a b : Nat} : natCmp a b = .gt ↔ b < a := by
  simp only [natCmp]
  split
  · simp_all
    omega
  · split <;> simp_all

theorem natCmp_eq_iff {a b : Nat} : natCmp a b = .eq ↔ a = b := by
  simp only [natCmp]
  split
  · simp_all
    omega
  · split <;> simp_all <;> omega

theorem char_toNat_inj {a b : Char} (h : a.toNat = b.toNat) : a = b := by
  have h2 := congrArg Char.ofNat h
  rwa [Char.ofNat_toNat, Char.ofNat_toNat] at h2

theorem listCharCmp_eq_iff : ∀ a b : List Char, listCharCmp a b = .eq ↔ a = b
  | [], [] => by simp [listCharCmp]
  | [], _ :: _ => by simp [listCharCmp]
  | _ :: _, [] => by simp [listCharCmp]
  | a :: as, b :: bs => by
    simp only [listCharCmp]
    rcases Nat.lt_trichotomy a.toNat b.toNat with h | h | h
    · rw [natCmp_lt_iff.mpr h]
      constructor
      · intro hc; cases hc
      · intro hc
        cases hc
        exact absurd h (lt_irrefl _)
    · have hab : a = b := char_toNat_inj h
      subst hab
      rw [natCmp_eq_iff.mpr rfl]
      rw [listCharCmp_eq_iff as bs]
      simp
    · rw [natCmp_gt_iff.mpr h]
      constructor
      · intro hc; cases hc
      · intro hc
        cases hc
        exact absurd h (lt_irrefl _)

theorem listCharCmp_lt_iff :
    ∀ a b : List Char,
      listCharCmp a b = .lt ↔ List.Lex (fun c d : Char => c.toNat < d.toNat) a b
  | [], [] => by
    constructor
    · intro h; simp [listCharCmp] at h
    · intro h; cases h
  | [], _ :: _ => by
    constructor
    · intro _; exact List.Lex.nil
    · intro _; rfl
  | _ :: _, [] => by
    constructor
    · intro h; simp [listCharCmp] at h
    · intro h; cases h
  | a :: as, b :: bs => by
    simp only [listCharCmp]
    rcases Nat.lt_trichotomy a.toNat b.toNat with h | h | h
    · rw [natCmp_lt_iff.mpr h]
      constructor
      · intro _; exact List.Lex.rel h
      · intro _; rfl
    · have hab : a = b := char_toNat_inj h
      subst hab
      rw [natCmp_eq_iff.mpr rfl]
      rw [listCharCmp_lt_iff as bs]
      constructor
      · exact List.Lex.cons
      · intro hx
        cases hx with
        | cons hx => exact hx
        | rel hr => exact absurd hr (lt_irrefl _)
    · rw [natCmp_gt_iff.mpr h]
      constructor
      · intro hc; cases hc
      · intro hx
        cases hx with
        | cons hx => exact absurd h (lt_irrefl _)
        | rel hr => omega

theorem new_raw_of_some {s : List Char} {r : SemanticString}
    (h : SemanticString.new s = some r) : r.raw = s := by
  unfold SemanticString.new at h
  cases ht : tokenize s with
  | none => rw [ht] at h; simp at h
  | some ps =>
    rw [ht] at h
    simp only [Option.map_some'] at h
    cases h
    rfl

/-! ## Claim theorems -/

/-- C1: the claim says the token spans, concatenated in order, exactly
reconstruct the input.  The code instead drops the last character of every
run of length at least two: on input `"ab"` the only token produced is
`Text "a"`, whose concatenation `"a"` is not the input `"ab"`. -/
theorem c1_new_drops_last_char_of_run :
    SemanticString.new ['a', 'b'] =
      some { raw := ['a', 'b'], parts := [StringPart.Text ['a']] } ∧
    [('a' : Char)] ≠ ['a', 'b'] := by decide

/-- C2: the claim says a maximal digit run yields a `Number` carrying the
decimal value of all of the run's characters.  On input `"10"` the full run
is `"10"` with decimal value `10`, but the code slices off the final digit
and produces `Number 1`. -/
theorem c2_new_truncates_digit_run :
    SemanticString.new ['1', '0'] =
      some { raw := ['1', '0'], parts := [StringPart.Number 1] } ∧
    decimalValue ['1', '0'] = 10 := by decide

/-- C3: the claim says the comparison is a valid total order, in particular
antisymmetric (two parsed strings comparing `Equal` are equal values).  The
constructed values for `"ab"` and `"ax"` both carry the single token
`Text "a"`, have equal raw byte length, and hence compare `Equal`, yet they
are different values (their raw strings differ). -/
theorem c3_cmp_not_antisymmetric :
    SemanticString.new ['a', 'b'] =
      some { raw := ['a', 'b'], parts := [StringPart.Text ['a']] } ∧
    SemanticString.new ['a', 'x'] =
      some { raw := ['a', 'x'], parts := [StringPart.Text ['a']] } ∧
    SemanticString.cmp { raw := ['a', 'b'], parts := [StringPart.Text ['a']] }
      { raw := ['a', 'x'], parts := [StringPart.Text ['a']] } = .eq ∧
    ({ raw := ['a', 'b'], parts := [StringPart.Text ['a']] } : SemanticString) ≠
      { raw := ['a', 'x'], parts := [StringPart.Text ['a']] } := by decide

/-- C4: the claim says a digit run whose decimal value exceeds the unsigned
64-bit maximum produces an explicit recoverable failure, never a truncated
value and never a panic.  For the run of twenty nines — whose full decimal
value `decimalValue` exceeds `2 ^ 64` — construction instead succeeds with
the silently truncated value of the first nineteen nines; and for twenty-one
nines the `.expect` in the constructor panics (modelled as `none`), so no
recoverable failure result is ever produced. -/
theorem c4_overflow_truncates_or_panics :
    SemanticString.new (List.replicate 20 '9') =
      some { raw := List.replicate 20 '9',
             parts := [StringPart.Number 9999999999999999999] } ∧
    2 ^ 64 ≤ decimalValue (List.replicate 20 '9') ∧
    SemanticString.new (List.replicate 21 '9') = none := by decide

/-- C5: the claim says every input free of oversized digit runs constructs
successfully, with non-ASCII numerals classified as text.  The code instead
panics (modelled as `none`) on any run consisting of a single multi-byte
character, because it slices at byte offset `first_index + 1`, which is not a
character boundary: both `"é"` and the non-ASCII numeral `"١"` make the
constructor panic. -/
theorem c5_new_panics_on_multibyte_char :
    SemanticString.new ['é'] = none ∧ SemanticString.new ['١'] = none := by
  decide

/-- C6: when the raw strings have different byte lengths, the string with the
shorter raw string compares strictly less and the longer strictly greater,
whatever the two token sequences are. -/
theorem c6_cmp_length_first (a b : SemanticString)
    (h : byteLen a.raw < byteLen b.raw) :
    SemanticString.cmp a b = .lt ∧ SemanticString.cmp b a = .gt := by
  unfold SemanticString.cmp
  rw [natCmp_lt_iff.mpr h, natCmp_gt_iff.mpr h]
  exact ⟨rfl, rfl⟩

/-- Witness for C6, at two values with deliberately clashing token content:
the shorter raw string wins regardless of the tokens. -/
theorem c6_cmp_length_first_witness :
    byteLen (SemanticString.mk ['a'] [StringPart.Number 7]).raw <
      byteLen (SemanticString.mk ['z', 'z'] [StringPart.Text ['z', 'z']]).raw ∧
    (SemanticString.cmp { raw := ['a'], parts := [StringPart.Number 7] }
        { raw := ['z', 'z'], parts := [StringPart.Text ['z', 'z']] } = .lt ∧
     SemanticString.cmp { raw := ['z', 'z'], parts := [StringPart.Text ['z', 'z']] }
        { raw := ['a'], parts := [StringPart.Number 7] } = .gt) :=
  ⟨by decide, c6_cmp_length_first _ _ (by decide)⟩

/-- C7: token comparison puts `Text` strictly before `Number` and `Number`
strictly after `Text` in every cross-variant pair; `Number` pairs compare by
the parsed integer value and `Text` pairs by lexicographic (code point, hence
byte) order of their spans. -/
theorem c7_token_cmp_tokens :
    (∀ t n, StringPart.cmp (.Text t) (.Number n) = .lt) ∧
    (∀ t n, StringPart.cmp (.Number n) (.Text t) = .gt) ∧
    (∀ m n, StringPart.cmp (.Number m) (.Number n) = .lt ↔ m < n) ∧
    (∀ m n, StringPart.cmp (.Number m) (.Number n) = .eq ↔ m = n) ∧
    (∀ a b, StringPart.cmp (.Text a) (.Text b) = .lt ↔
      List.Lex (fun c d : Char => c.toNat < d.toNat) a b) ∧
    (∀ a b, StringPart.cmp (.Text a) (.Text b) = .eq ↔ a = b) := by
  refine ⟨fun _ _ => rfl, fun _ _ => rfl, fun m n => natCmp_lt_iff,
    fun m n => natCmp_eq_iff, fun a b => listCharCmp_lt_iff a b,
    fun a b => listCharCmp_eq_iff a b⟩

/-- C8: constructing from the empty string succeeds, produces zero tokens,
and stores the empty raw string unchanged. -/
theorem c8_new_empty :
    SemanticString.new [] = some { raw := [], parts := [] } := by decide

/-- C9: two successfully constructed values are equal (structurally, raw
string and token sequence alike) exactly when their input strings are equal:
construction is a deterministic function whose result determines and is
determined by the raw string. -/
theorem c9_eq_iff_raw_eq (s t : List Char) (a b : SemanticString)
    (ha : SemanticString.new s = some a) (hb : SemanticString.new t = some b) :
    a = b ↔ s = t := by
  constructor
  · intro hab
    rw [← new_raw_of_some ha, ← new_raw_of_some hb, hab]
  · intro hst
    subst hst
    exact Option.some.inj (ha.symm.trans hb)

/-- Witness for C9 at the input `"a"`. -/
theorem c9_eq_iff_raw_eq_witness :
    SemanticString.new ['a'] =
      some { raw := ['a'], parts := [StringPart.Text ['a']] } ∧
    (({ raw := ['a'], parts := [StringPart.Text ['a']] } : SemanticString) =
        { raw := ['a'], parts := [StringPart.Text ['a']] } ↔
      (['a'] : List Char) = ['a']) :=
  ⟨by decide, c9_eq_iff_raw_eq ['a'] ['a'] _ _ (by decide) (by decide)⟩

/-- C10: a successful construction stores the input unchanged in the public
`raw` field, dereferencing yields that same string, and the `From`
conversion is the same function as `new`. -/
theorem c10_raw_deref_from (s : List Char) (r : SemanticString)
    (h : SemanticString.new s = some r) :
    r.raw = s ∧ r.deref = s ∧ SemanticString.fromStr s = SemanticString.new s :=
  ⟨new_raw_of_some h, new_raw_of_some h, rfl⟩

/-- Witness for C10 at the input `"a"`. -/
theorem c10_raw_deref_from_witness :
    SemanticString.new ['a'] =
      some { raw := ['a'], parts := [StringPart.Text ['a']] } ∧
    (SemanticString.mk ['a'] [StringPart.Text ['a']]).raw = ['a'] ∧
    (SemanticString.mk ['a'] [StringPart.Text ['a']]).deref = ['a'] ∧
    SemanticString.fromStr ['a'] = SemanticString.new ['a'] := by
  refine ⟨by decide, ?_⟩
  have h := c10_raw_deref_from ['a']
    { raw := ['a'], parts := [StringPart.Text ['a']] } (by decide)
  exact ⟨h.1, h.2.1, h.2.2⟩
